import Mathlib

/-!
Verification of the FlightDataAnalyzer node framework
(`src/analysis_engine/node.py`, with the legacy `src/analysis/node.py`).

The Python code is shallowly embedded: machine floats become exact
rationals (`ℚ`), numpy masked entries become `Option`, Python `None`
becomes `Option.none`, mutation of a caller's array becomes explicit
state passing, and raising code returns `Except`/`Option`.  Each
definition is translated from the source function named in its doc
comment.  `numpy` and `itertools` are external collaborators of the
repository; the handful of library calls the embedded functions make
(`np.ma.clump_unmasked`, `itertools.combinations`, `itertools.product`,
Python's stable `sorted`) are modelled from their documented behaviour.
-/

namespace FDA

/-- `KeyTimeInstance` recordtype (node.py line 30): `index` and `name`
(the optional datetime / geolocation context fields, which no claim
touches and which alignment copies verbatim, are omitted). -/
structure KeyTimeInstance where
  index : ℚ
  name : String
  deriving DecidableEq, Repr

/-- `KeyPointValue` recordtype (node.py line 27): `index`, `value`, `name`
(the optional slice / datetime / geolocation context fields, which no
claim touches and which alignment copies verbatim, are omitted). -/
structure KeyPointValue where
  index : ℚ
  value : ℚ
  name : String
  deriving DecidableEq, Repr

/-- `Section` namedtuple (node.py line 33): name, `[start, stop)` slice
bounds (integers or `None`), and fractional start/stop edges. -/
structure Section where
  name : String
  sliceStart : Option ℤ
  sliceStop : Option ℤ
  startEdge : Option ℚ
  stopEdge : Option ℚ
  deriving DecidableEq, Repr

/-- Python's `begin or fallback` applied to an optional float: `None`
and `0.0` are falsy, so the fallback is used for both. -/
def pyOr (b : Option ℚ) (fallback : Option ℚ) : Option ℚ :=
  match b with
  | some q => if q = 0 then fallback else some q
  | none => fallback

/-- `SectionNode.create_section` (node.py lines 640-660):
`Section(name or self.get_name(), slice, begin or slice.start, end or slice.stop)`.
`nodeName` stands for `self.get_name()`. -/
def createSection (nodeName : String) (name : String) (sliceStart sliceStop : Option ℤ)
    (begin_ end_ : Option ℚ) : Section :=
  { name := if name = "" then nodeName else name
    sliceStart := sliceStart
    sliceStop := sliceStop
    startEdge := pyOr begin_ (sliceStart.map Int.cast)
    stopEdge := pyOr end_ (sliceStop.map Int.cast) }

/-- `SectionNode.get_aligned` (node.py lines 671-704).  `sf`/`so` are the
node's own frequency and offset, `tf`/`to_` the target's.  Each edge is
converted by `edge * (tf / sf) + (so - to_) * tf`; `None` edges stay
`None`; the new slice bounds are the ceilings of the converted edges. -/
def sectionGetAligned (nodeName : String) (sf so tf to_ : ℚ) (sections : List Section) :
    List Section :=
  let multiplier := tf / sf
  let offset := (so - to_) * tf
  sections.map (fun s =>
    let convertedStart := s.startEdge.map (fun e => e * multiplier + offset)
    let innerSliceStart := convertedStart.map Rat.ceil
    let convertedStop := s.stopEdge.map (fun e => e * multiplier + offset)
    let innerSliceStop := convertedStop.map Rat.ceil
    createSection nodeName s.name innerSliceStart innerSliceStop convertedStart convertedStop)

/-- `KeyTimeInstanceNode.get_aligned` (node.py lines 1289-1305):
`index_aligned = (kti.index * multiplier) + offset` with
`multiplier = param.frequency / self.frequency` and
`offset = (self.offset - param.offset) * param.frequency`. -/
def ktiGetAligned (sf so tf to_ : ℚ) (l : List KeyTimeInstance) : List KeyTimeInstance :=
  let multiplier := tf / sf
  let offset := (so - to_) * tf
  l.map (fun kti => { kti with index := kti.index * multiplier + offset })

/-- `KeyPointValueNode.get_aligned` (node.py lines 1384-1398): same index
mapping as for KTIs; value and name are copied unchanged. -/
def kpvGetAligned (sf so tf to_ : ℚ) (l : List KeyPointValue) : List KeyPointValue :=
  let multiplier := tf / sf
  let offset := (so - to_) * tf
  l.map (fun kpv => { kpv with index := kpv.index * multiplier + offset })

/-- The index-alignment map exactly as the specification words it:
`(i * (target.frequency / self.frequency)) + (self.offset - target.offset) * target.frequency`. -/
def specAlignedIndex (sf so tf to_ : ℚ) (i : ℚ) : ℚ :=
  (i * (tf / sf)) + (so - to_) * tf

/-! ### Operability (`Node.can_operate`, `powerset`) -/

/-- `itertools.combinations(s, r)` (modelled from its documentation): all
length-`r` subsequences of `s`, in lexicographic order of positions. -/
def combinations : Nat → List α → List (List α)
  | 0, _ => [[]]
  | _ + 1, [] => []
  | r + 1, x :: xs => (combinations r xs).map (x :: ·) ++ combinations (r + 1) xs

/-- `powerset` (node.py lines 50-59): chain of `combinations(s, r)` for
`r = 0 .. len(s)`. -/
def powerset (s : List α) : List (List α) :=
  (List.range (s.length + 1)).flatMap (fun r => combinations r s)

/-- Default `Node.can_operate` (node.py lines 154-180):
`all(x in available for x in cls.get_dependency_names())`. -/
def canOperate (deps : List String) (available : List String) : Bool :=
  deps.all (fun x => available.contains x)

/-- `Node.get_operational_combinations` (node.py lines 182-189): the
members of the powerset of the dependency names accepted by
`can_operate`, in powerset order. -/
def getOperationalCombinations (deps : List String) : List (List String) :=
  (powerset deps).filter (fun args => canOperate deps args)

/-! ### `KeyPointValueNode.create_kpv` -/

/-- A Python float as `create_kpv` sees it: finite, `±inf`, or `NaN`. -/
inductive PyFloat where
  | finite (q : ℚ)
  | inf
  | neginf
  | nan
  deriving DecidableEq, Repr

/-- The `value` argument of `create_kpv`: `None`, `np.ma.masked`, or a
number. -/
inductive KpvInput where
  | noneV
  | maskedV
  | numV (x : PyFloat)
  deriving DecidableEq, Repr

/-- `KeyPointValueNode.create_kpv` (node.py lines 1325-1382) for a node
in the default naming configuration (no `NAME_FORMAT`, so
`format_name()` returns the node name and never raises).  A `None`
index, a `None`/masked value, or an infinite/NaN value is logged and
dropped; otherwise one `KeyPointValue` is appended.  The list returned
is the collection after the call. -/
def createKpv (node : List KeyPointValue) (nodeName : String) (index : Option ℚ)
    (value : KpvInput) : List KeyPointValue :=
  match index, value with
  | none, _ => node
  | some _, .noneV => node
  | some _, .maskedV => node
  | some _, .numV .inf => node
  | some _, .numV .neginf => node
  | some _, .numV .nan => node
  | some i, .numV (.finite v) => node ++ [{ index := i, value := v, name := nodeName }]

/-! ### `NodeManager` -/

/-- `NodeManager` (node.py lines 1716-1742).  The two attribute
dictionaries may map a present key to `None` (`Option.none`); derived
nodes are their `can_operate` predicates. -/
structure NodeManager where
  lfl : List String
  aircraftInfo : List (String × Option String)
  achievedFlightRecord : List (String × Option String)
  derivedNodes : List (String × (List String → Bool))

/-- Python's `d.get(name) is not None`: true only when the key is present
with a non-`None` value. -/
def getNotNone (d : List (String × Option String)) (name : String) : Bool :=
  match d.lookup name with
  | some (some _) => true
  | _ => false

/-- The disjunction guarding the unconditional-`True` branch of
`NodeManager.operational` (node.py lines 1787-1791). -/
def presentUnconditionally (m : NodeManager) (name : String) : Bool :=
  m.lfl.contains name || getNotNone m.aircraftInfo name
    || getNotNone m.achievedFlightRecord name || name == "root" || name == "Start Datetime"

/-- `NodeManager.operational` (node.py lines 1775-1803). -/
def operational (m : NodeManager) (name : String) (available : List String) : Bool :=
  if presentUnconditionally m name then
    true
  else
    match m.derivedNodes.lookup name with
    | some canOp => canOp available
    | none => false

/-! ### `KeyTimeInstanceNode.create_ktis_on_state_change` -/

/-- The `change` argument (node.py line 1242). -/
inductive Change where
  | entering
  | leaving
  | entering_and_leaving
  deriving DecidableEq, Repr

/-- Decidable check that `(s, e)` is a maximal run of the target state
code `t` inside the scanned array `l` (masked entries are `none`):
nonempty, every sample in `[s, e)` equals `t`, and the run is not
extendable on either side. -/
def isMaximalRun (t : Nat) (l : List (Option Nat)) (s e : Nat) : Bool :=
  decide (s < e) && decide (e ≤ l.length)
    && ((List.range (e - s)).all fun k => l.getD (s + k) none == some t)
    && (s == 0 || !(l.getD (s - 1) none == some t))
    && (e == l.length || !(l.getD e none == some t))

/-- `np.ma.clump_unmasked(np.ma.masked_not_equal(array, value))`
(modelled from numpy's documentation): the maximal runs of entries equal
to `value`, as `[start, stop)` pairs in increasing order of start. -/
def clumpsOf (t : Nat) (l : List (Option Nat)) : List (Nat × Nat) :=
  (((List.range (l.length + 1)).flatMap fun s =>
    (List.range (l.length + 1)).map fun e => (s, e))).filter
    fun p => isMaximalRun t l p.1 p.2

/-- `KeyTimeInstanceNode.create_ktis_on_state_change` (node.py lines
1242-1287), for one scanned slice `l` starting at absolute index
`sliceStart`: per run, a KTI at `start - 0.5` for `entering` (unless the
run starts the scanned range) and at `stop - 0.5` for `leaving` (unless
the run ends it).  Returns the created KTI indices in creation order. -/
def createKtisOnStateChange (change : Change) (t : Nat) (l : List (Option Nat))
    (sliceStart : Nat) : List ℚ :=
  (clumpsOf t l).flatMap fun p =>
    (if (change = .entering ∨ change = .entering_and_leaving) ∧ 0 < p.1 then
      [((p.1 + sliceStart : Nat) : ℚ) - 1/2]
    else []) ++
    (if (change = .leaving ∨ change = .entering_and_leaving) ∧ p.2 < l.length then
      [((p.2 + sliceStart : Nat) : ℚ) - 1/2]
    else [])

/-! ### `SectionNode.get_next` / `get_previous` -/

/-- The `use` argument: which end of the slice to compare. -/
inductive UseKey where
  | start
  | stop
  deriving DecidableEq, Repr

/-- `getattr(elem.slice, use)`. -/
def sliceAttr (use : UseKey) (s : Section) : Option ℤ :=
  match use with
  | .start => s.sliceStart
  | .stop => s.sliceStop

/-- Python 2 ordering `key > index` where `key` may be `None` (`None`
compares less than every number). -/
def pyGtNum (key : Option ℤ) (i : ℚ) : Bool :=
  match key with
  | none => false
  | some z => decide (i < (z : ℚ))

/-- Python 2 ordering `key < index` where `key` may be `None`. -/
def pyLtNum (key : Option ℤ) (i : ℚ) : Bool :=
  match key with
  | none => true
  | some z => decide ((z : ℚ) < i)

/-- The sort key of `get_ordered_by_index`: slice starts with Python 2's
`None`-is-least ordering. -/
def keyLE (a b : Option ℤ) : Prop :=
  match a, b with
  | none, _ => True
  | some _, none => False
  | some x, some y => x ≤ y

instance : DecidableRel keyLE := fun a b =>
  match a, b with
  | none, _ => inferInstanceAs (Decidable True)
  | some _, none => inferInstanceAs (Decidable False)
  | some x, some y => inferInstanceAs (Decidable (x ≤ y))

/-- Comparison underlying `sorted(self, key=attrgetter('slice.start'))`. -/
def startOrder (a b : Section) : Prop :=
  keyLE a.sliceStart b.sliceStart

instance : DecidableRel startOrder := fun a b =>
  inferInstanceAs (Decidable (keyLE a.sliceStart b.sliceStart))

/-- `SectionNode.get_ordered_by_index` (node.py lines 809-830) at its
default arguments (`order_by='start'`, no name or slice filter): a
stable sort by slice start.  Python's `sorted` is a stable sort;
modelled with Mathlib's stable `insertionSort`. -/
def getOrderedByIndex (l : List Section) : List Section :=
  List.insertionSort startOrder l

/-- `SectionNode.get_next` (node.py lines 832-860) with no name or slice
filter: convert `index` if a foreign `frequency` is given, then return
the first element of the start-ordered list whose `use` key exceeds it. -/
def getNext (l : List Section) (index : ℚ) (frequency : Option ℚ) (selfFrequency : ℚ)
    (use : UseKey) : Option Section :=
  let index := match frequency with
    | some f => index * (selfFrequency / f)
    | none => index
  (getOrderedByIndex l).find? (fun el => pyGtNum (sliceAttr use el) index)

/-- `SectionNode.get_previous` (node.py lines 862-888) with no name or
slice filter: like `get_next` but walking the start-ordered list in
reverse for the first element whose `use` key is below the index. -/
def getPrevious (l : List Section) (index : ℚ) (frequency : Option ℚ) (selfFrequency : ℚ)
    (use : UseKey) : Option Section :=
  let index := match frequency with
    | some f => index * (selfFrequency / f)
    | none => index
  ((getOrderedByIndex l).reverse).find? (fun el => pyLtNum (sliceAttr use el) index)

/-! ### `FormattedNameNode` -/

/-- One piece of a `NAME_FORMAT` template: literal text or a `%(key)s`
substitution (the numeric conversion of the value is folded into the
value strings). -/
inductive Tok where
  | lit (s : String)
  | sub (k : String)
  deriving DecidableEq, Repr

/-- Python `template % dict` (modelled from its documentation): `none`
is the `KeyError` raised when the template needs a key the dict lacks;
entries of the dict that the template does not use are ignored. -/
def render : List Tok → List (String × String) → Option String
  | [], _ => some ""
  | .lit s :: rest, vals => (render rest vals).map (fun r => s ++ r)
  | .sub k :: rest, vals =>
    match vals.lookup k with
    | some v => (render rest vals).map (fun r => v ++ r)
    | none => none

/-- `itertools.product(*value_lists)` (modelled from its documentation):
Cartesian product tuples with the rightmost list varying fastest. -/
def cartProduct : List (List String) → List (List String)
  | [] => [[]]
  | xs :: rest => xs.flatMap (fun x => (cartProduct rest).map (x :: ·))

/-- `FormattedNameNode.names` (node.py lines 961-978): the fixed node
name when neither `NAME_FORMAT` nor `NAME_VALUES` is configured,
otherwise one rendering of the template per Cartesian-product
combination of the `NAME_VALUES` option lists.  `none` models the
`KeyError` escaping when the template needs a key `NAME_VALUES` lacks. -/
def namesOf (fixedName : String) (fmt : List Tok) (vals : List (String × List String)) :
    Option (List String) :=
  if fmt = [] ∧ vals = [] then
    some [fixedName]
  else
    (cartProduct (vals.map Prod.snd)).mapM
      (fun combo => render fmt ((vals.map Prod.fst).zip combo))

/-- The two exceptions `format_name` can raise. -/
inductive FmtError where
  | keyError
  | valueError
  deriving DecidableEq, Repr

/-- `FormattedNameNode.format_name` (node.py lines 989-1011): with no
substitutions and no template, the fixed node name; otherwise render the
template with the supplied values and check the result against
`names()`, raising `ValueError` on a mismatch. -/
def formatName (fixedName : String) (fmt : List Tok) (vals : List (String × List String))
    (rvals : List (String × String)) : Except FmtError String :=
  if rvals = [] ∧ fmt = [] then
    .ok fixedName
  else
    match render fmt rvals with
    | none => .error .keyError
    | some name =>
      match namesOf fixedName fmt vals with
      | none => .error .keyError
      | some names => if name ∈ names then .ok name else .error .valueError

/-- The substitution keys a template uses. -/
def usedKeys : List Tok → List String
  | [] => []
  | .lit _ :: rest => usedKeys rest
  | .sub k :: rest => k :: usedKeys rest

/-! ### `Attribute` / `FlightAttributeNode` truthiness -/

/-- The wrapped values relevant to `Attribute.__nonzero__`. -/
inductive PyVal where
  | noneV
  | boolV (b : Bool)
  | intV (n : ℤ)
  | strV (s : String)
  deriving DecidableEq, Repr

/-- Python truthiness `bool(v)`. -/
def pyTruthy : PyVal → Bool
  | .noneV => false
  | .boolV b => b
  | .intV n => n != 0
  | .strV s => s != ""

/-- Python `v == 0` (true for `0` and for `False`). -/
def pyEqZero : PyVal → Bool
  | .intV n => n == 0
  | .boolV b => !b
  | _ => false

/-- Python `v is False`. -/
def pyIsFalse : PyVal → Bool
  | .boolV false => true
  | _ => false

/-- `Attribute.__nonzero__` (node.py lines 1834-1847) and the identical
`FlightAttributeNode.__nonzero__` (lines 1689-1700):
`bool(self.value or (self.value == 0 and self.value is not False))`. -/
def attrNonzero (value : PyVal) : Bool :=
  pyTruthy value || (pyEqZero value && !pyIsFalse value)

/-! ### `KeyPointValueNode.create_kpv_outside_slices` -/

/-- Membership of index `i` in a Python slice with optional bounds over
an array of length `len` (nonnegative bounds; `None` spans to the
array's edge). -/
def sliceContains (sliceStart sliceStop : Option Nat) (len i : Nat) : Bool :=
  sliceStart.getD 0 ≤ i && i < sliceStop.getD len

/-- `array[slice_] = np.ma.masked` on a masked array modelled as
`List (Option ℚ)`; `k` is the index of the first element. -/
def maskEntries (s : Option Nat × Option Nat) (len : Nat) :
    Nat → List (Option ℚ) → List (Option ℚ)
  | _, [] => []
  | k, x :: xs => (if sliceContains s.1 s.2 len k then none else x) :: maskEntries s len (k + 1) xs

/-- The masking loop of `create_kpv_outside_slices`: each slice of the
input array is masked in turn, in place. -/
def maskSlices (arr : List (Option ℚ)) (slices : List (Option Nat × Option Nat)) :
    List (Option ℚ) :=
  slices.foldl (fun a s => maskEntries s a.length 0 a) arr

/-- `KeyPointValueNode.create_kpv_outside_slices` (node.py lines
1529-1551).  The in-place mutation of the caller's array is made
explicit: the first component of the result is the caller's array after
the call (the given slices masked, never restored), the second is the
KPV collection after the `create_kpv` of whatever `function` returned on
the masked array. -/
def createKpvOutsideSlices (arr : List (Option ℚ)) (slices : List (Option Nat × Option Nat))
    (nodeName : String) (function : List (Option ℚ) → Option ℚ × KpvInput)
    (node : List KeyPointValue) : List (Option ℚ) × List KeyPointValue :=
  let arr' := maskSlices arr slices
  let iv := function arr'
  (arr', createKpv node nodeName iv.1 iv.2)

/-- A section whose integer slice bounds are the ceilings of its
fractional edges — the shape `get_aligned` itself produces. -/
def edgesCanonical (s : Section) : Prop :=
  s.sliceStart = s.startEdge.map Rat.ceil ∧ s.sliceStop = s.stopEdge.map Rat.ceil

instance : IsTotal Section startOrder :=
  ⟨fun a b => by
    unfold startOrder keyLE
    rcases a.sliceStart with _ | x <;> rcases b.sliceStart with _ | y <;> simp
    exact le_total x y⟩

instance : IsTrans Section startOrder :=
  ⟨fun a b c => by
    unfold startOrder keyLE
    rcases a.sliceStart with _ | x <;> rcases b.sliceStart with _ | y <;>
      rcases c.sliceStart with _ | z <;> simp
    exact le_trans⟩

/-! ## Theorems -/

theorem ratCeil_zero : Rat.ceil 0 = 0 := rfl

theorem pyOr_some_ceil (q : ℚ) : pyOr (some q) (some ((Rat.ceil q : ℤ) : ℚ)) = some q := by
  show (if q = 0 then some ((Rat.ceil q : ℤ) : ℚ) else some q) = some q
  split
  · next h => subst h; simp [ratCeil_zero]
  · rfl

theorem aligned_section_edges (nodeName : String) (sf so tf to_ : ℚ) (s : Section) :
    ((sectionGetAligned nodeName sf so tf to_ [s]).map
        (fun r => (r.startEdge, r.stopEdge))) =
      [(s.startEdge.map (specAlignedIndex sf so tf to_),
        s.stopEdge.map (specAlignedIndex sf so tf to_))] := by
  simp only [sectionGetAligned, specAlignedIndex, createSection, List.map_cons, List.map_nil,
    List.cons.injEq, and_true, Prod.mk.injEq]
  constructor
  · rcases s.startEdge with _ | q
    · rfl
    · simpa [Option.map_map, Function.comp] using
        pyOr_some_ceil (q * (tf / sf) + (so - to_) * tf)
  · rcases s.stopEdge with _ | q
    · rfl
    · simpa [Option.map_map, Function.comp] using
        pyOr_some_ceil (q * (tf / sf) + (so - to_) * tf)

/-- C1: for KTI, KPV and Section collections at frequency `sf` and offset
`so`, aligning to a target at frequency `tf` and offset `to_` maps every
contained index and every defined section edge `i` to
`(i * (tf / sf)) + (so - to_) * tf`, and a `None` (open-ended) section
edge stays `None`. -/
theorem c1_get_aligned_index_formula (nodeName : String) (sf so tf to_ : ℚ)
    (ktis : List KeyTimeInstance) (kpvs : List KeyPointValue) (secs : List Section) :
    (ktiGetAligned sf so tf to_ ktis).map (fun k => k.index)
        = ktis.map (fun k => specAlignedIndex sf so tf to_ k.index)
    ∧ (kpvGetAligned sf so tf to_ kpvs).map (fun k => k.index)
        = kpvs.map (fun k => specAlignedIndex sf so tf to_ k.index)
    ∧ (sectionGetAligned nodeName sf so tf to_ secs).map
          (fun r => (r.startEdge, r.stopEdge))
        = secs.map (fun s => (s.startEdge.map (specAlignedIndex sf so tf to_),
                              s.stopEdge.map (specAlignedIndex sf so tf to_))) := by
  refine ⟨?_, ?_, ?_⟩
  · simp [ktiGetAligned, specAlignedIndex]
  · simp [kpvGetAligned, specAlignedIndex]
  · induction secs with
    | nil => rfl
    | cons s rest ih =>
      have hs := aligned_section_edges nodeName sf so tf to_ s
      simp only [sectionGetAligned, List.map_cons, List.map_nil, List.cons.injEq,
        and_true] at hs ⊢
      exact ⟨hs, ih⟩

/-- C5 counterexample: a section built by `create_section(slice(2, 5),
begin=2.5)` — legal, since edges carry sub-sample precision the integer
slice cannot — is changed by aligning to the node's own frequency 1 and
offset 0: the aligned slice start is `ceil(2.5) = 3`, not 2.  So
`get_aligned` at identical frequency and offset is not the identity on
`SectionNode` elements. -/
theorem c5_self_alignment_counterexample :
    sectionGetAligned ("Fast") 1 0 1 0
        [createSection ("Fast") ("Fast") (some 2) (some 5) (some (5/2)) none] ≠
      [createSection ("Fast") ("Fast") (some 2) (some 5) (some (5/2)) none] := by
  norm_num [sectionGetAligned, createSection, pyOr, Rat.ceil]

theorem map_index_self {l : List KeyTimeInstance} {f o : ℚ} (hf : f ≠ 0) :
    ktiGetAligned f o f o l = l := by
  have h : ∀ k : KeyTimeInstance,
      ({ k with index := k.index * (f / f) + (o - o) * f } : KeyTimeInstance) = k := by
    intro k
    have hx : k.index * (f / f) + (o - o) * f = k.index := by
      rw [div_self hf]; ring
    rw [hx]
  simp only [ktiGetAligned]
  rw [show (fun kti : KeyTimeInstance =>
      ({ kti with index := kti.index * (f / f) + (o - o) * f } : KeyTimeInstance)) = id
    from funext fun k => h k]
  exact List.map_id l

theorem kpv_map_index_self {l : List KeyPointValue} {f o : ℚ} (hf : f ≠ 0) :
    kpvGetAligned f o f o l = l := by
  have h : ∀ k : KeyPointValue,
      ({ k with index := k.index * (f / f) + (o - o) * f } : KeyPointValue) = k := by
    intro k
    have hx : k.index * (f / f) + (o - o) * f = k.index := by
      rw [div_self hf]; ring
    rw [hx]
  simp only [kpvGetAligned]
  rw [show (fun kpv : KeyPointValue =>
      ({ kpv with index := kpv.index * (f / f) + (o - o) * f } : KeyPointValue)) = id
    from funext fun k => h k]
  exact List.map_id l

theorem section_self_aligned {nodeName : String} {f o : ℚ} (hf : f ≠ 0) (s : Section)
    (hname : s.name ≠ "") (hc : edgesCanonical s) :
    createSection nodeName s.name
        ((s.startEdge.map (fun e => e * (f / f) + (o - o) * f)).map Rat.ceil)
        ((s.stopEdge.map (fun e => e * (f / f) + (o - o) * f)).map Rat.ceil)
        (s.startEdge.map (fun e => e * (f / f) + (o - o) * f))
        (s.stopEdge.map (fun e => e * (f / f) + (o - o) * f)) = s := by
  have hid : (fun e : ℚ => e * (f / f) + (o - o) * f) = id := by
    funext e; simp [div_self hf]
  rw [hid]
  simp only [Option.map_id, id_eq]
  obtain ⟨h1, h2⟩ := hc
  unfold createSection
  rcases s with ⟨n, ss, sp, se, pe⟩
  simp only at h1 h2 hname ⊢
  rw [if_neg hname, ← h1, ← h2]
  simp only [Section.mk.injEq, true_and]
  constructor
  · rcases se with _ | q
    · simp [pyOr, h1]
    · rw [h1]; simpa using pyOr_some_ceil q
  · rcases pe with _ | q
    · simp [pyOr, h2]
    · rw [h2]; simpa using pyOr_some_ceil q

/-- C5 amended: `get_aligned` at identical frequency and offset returns
equal elements for KTI and KPV collections; for a Section collection it
preserves every edge and name but recomputes the integer slice bounds as
the ceilings of the edges, so it is the identity exactly on sections
whose slice bounds already are those ceilings (and whose name is
nonempty, since `create_section` replaces an empty name by the node
name). -/
theorem c5_self_alignment_identity (nodeName : String) (f o : ℚ) (hf : f ≠ 0)
    (ktis : List KeyTimeInstance) (kpvs : List KeyPointValue) (secs : List Section)
    (hsecs : ∀ s ∈ secs, s.name ≠ "" ∧ edgesCanonical s) :
    ktiGetAligned f o f o ktis = ktis
    ∧ kpvGetAligned f o f o kpvs = kpvs
    ∧ sectionGetAligned nodeName f o f o secs = secs := by
  refine ⟨map_index_self hf, kpv_map_index_self hf, ?_⟩
  induction secs with
  | nil => rfl
  | cons s rest ih =>
    have hs := hsecs s (List.mem_cons_self s rest)
    simp only [sectionGetAligned, List.map_cons, List.cons.injEq] at ih ⊢
    exact ⟨section_self_aligned hf s hs.1 hs.2,
      ih fun x hx => hsecs x (List.mem_cons_of_mem s hx)⟩

/-- C5 witness: the amended identity instantiated at frequency 2,
offset 1/4, one KTI, one KPV and one canonical section. -/
theorem c5_self_alignment_identity_witness :
    ktiGetAligned 2 (1/4) 2 (1/4) [⟨3, "Touchdown"⟩] = [⟨3, "Touchdown"⟩]
    ∧ kpvGetAligned 2 (1/4) 2 (1/4) [⟨7, 150, "Airspeed Max"⟩] = [⟨7, 150, "Airspeed Max"⟩]
    ∧ sectionGetAligned ("Fast") 2 (1/4) 2 (1/4) [⟨"Fast", some 2, some 5, some 2, some 5⟩]
        = [⟨"Fast", some 2, some 5, some 2, some 5⟩] :=
  c5_self_alignment_identity ("Fast") 2 (1/4) (by norm_num)
    [⟨3, "Touchdown"⟩] [⟨7, 150, "Airspeed Max"⟩]
    [⟨"Fast", some 2, some 5, some 2, some 5⟩]
    (by intro s hs; rw [List.mem_singleton] at hs; subst hs
        exact ⟨by decide, by constructor <;> rfl⟩)

theorem mem_combinations_iff {α : Type} (l : List α) :
    ∀ (r : Nat) (c : List α), c ∈ combinations r l ↔ c.Sublist l ∧ c.length = r := by
  induction l with
  | nil =>
    intro r c
    cases r with
    | zero =>
      simp only [combinations, List.mem_singleton, List.sublist_nil]
      constructor
      · rintro rfl; exact ⟨rfl, rfl⟩
      · rintro ⟨rfl, _⟩; rfl
    | succ r =>
      simp only [combinations, List.not_mem_nil, false_iff, not_and, List.sublist_nil]
      rintro rfl; simp
  | cons x xs ih =>
    intro r c
    cases r with
    | zero =>
      simp only [combinations, List.mem_singleton]
      constructor
      · rintro rfl; exact ⟨List.nil_sublist _, rfl⟩
      · rintro ⟨_, hl⟩; exact List.eq_nil_of_length_eq_zero hl
    | succ r =>
      simp only [combinations, List.mem_append, List.mem_map]
      constructor
      · rintro (⟨c', hc', rfl⟩ | h)
        · obtain ⟨hs, hl⟩ := (ih r c').1 hc'
          exact ⟨hs.cons₂ x, by simp [hl]⟩
        · obtain ⟨hs, hl⟩ := (ih (r + 1) c).1 h
          exact ⟨hs.cons x, hl⟩
      · rintro ⟨hs, hl⟩
        cases hs with
        | cons _ h => exact Or.inr ((ih (r + 1) c).2 ⟨h, hl⟩)
        | cons₂ _ h =>
          next tail =>
          exact Or.inl ⟨tail, (ih r tail).2 ⟨h, Nat.succ_injective hl⟩, rfl⟩

theorem mem_powerset_iff {α : Type} (s : List α) (c : List α) :
    c ∈ powerset s ↔ c.Sublist s := by
  simp only [powerset, List.mem_flatMap, List.mem_range, mem_combinations_iff]
  constructor
  · rintro ⟨r, _, hc, rfl⟩; exact hc
  · intro h; exact ⟨c.length, Nat.lt_succ_of_le h.length_le, h, rfl⟩

/-- C2: the default `can_operate` holds exactly when every declared
dependency name is in `available`, and `get_operational_combinations`
returns, in powerset enumeration order, exactly the members of the
powerset of the dependency list (the subsequences of that list) on which
`can_operate` holds. -/
theorem c2_can_operate_default_and_combinations (deps available : List String) :
    (canOperate deps available = true ↔ ∀ d ∈ deps, d ∈ available)
    ∧ getOperationalCombinations deps
        = (powerset deps).filter (fun args => canOperate deps args)
    ∧ (∀ c, c ∈ powerset deps ↔ c.Sublist deps) := by
  refine ⟨?_, rfl, fun c => mem_powerset_iff deps c⟩
  simp [canOperate, List.all_eq_true, List.elem_iff]

/-- C3: `create_kpv` with a `None` index, a `None` value, a masked
value, or an infinite/NaN value leaves the collection unchanged (the
condition is only logged; the embedding is total, so nothing is raised),
and with a non-`None` index and a finite unmasked value it appends
exactly one `KeyPointValue` carrying that index and value. -/
theorem c3_create_kpv_validation (node : List KeyPointValue) (nodeName : String)
    (index : Option ℚ) (value : KpvInput) :
    ((index = none ∨ value = .noneV ∨ value = .maskedV ∨ value = .numV .inf
        ∨ value = .numV .neginf ∨ value = .numV .nan) →
      createKpv node nodeName index value = node)
    ∧ (∀ i v, index = some i → value = .numV (.finite v) →
      createKpv node nodeName index value
        = node ++ [{ index := i, value := v, name := nodeName }]) := by
  constructor
  · rintro (rfl | rfl | rfl | rfl | rfl | rfl)
    · cases value with
      | noneV => rfl
      | maskedV => rfl
      | numV x => cases x <;> rfl
    · cases index <;> rfl
    · cases index <;> rfl
    · cases index <;> rfl
    · cases index <;> rfl
    · cases index <;> rfl
  · rintro i v rfl rfl
    rfl

/-- C3 witness: the specification's examples — `create_kpv(None, 5.0)`
and `create_kpv(3, inf)` leave the collection unchanged, while
`create_kpv(3, 5.0)` appends exactly one entry. -/
theorem c3_create_kpv_validation_witness :
    createKpv [] ("Airspeed Max") none (.numV (.finite 5)) = []
    ∧ createKpv [] ("Airspeed Max") (some 3) (.numV .inf) = []
    ∧ createKpv [] ("Airspeed Max") (some 3) (.numV (.finite 5))
        = [] ++ [{ index := 3, value := 5, name := "Airspeed Max" }] :=
  ⟨(c3_create_kpv_validation [] ("Airspeed Max") none (.numV (.finite 5))).1 (Or.inl rfl),
   (c3_create_kpv_validation [] ("Airspeed Max") (some 3) (.numV .inf)).1
     (Or.inr (Or.inr (Or.inr (Or.inl rfl)))),
   (c3_create_kpv_validation [] ("Airspeed Max") (some 3) (.numV (.finite 5))).2 3 5 rfl rfl⟩

/-- C4 counterexample: an attribute dictionary key whose stored value is
`None` is present in the dictionary, yet `operational` does not return
true for it — the code tests `aircraft_info.get(name) is not None`, not
key membership — so with no other source for the name it returns
false. -/
theorem c4_operational_counterexample :
    operational ⟨[], [("Dry Operating Weight", none)], [], []⟩
        ("Dry Operating Weight") [] = false
    ∧ ("Dry Operating Weight" : String)
        ∈ (NodeManager.mk [] [("Dry Operating Weight", none)] [] []).aircraftInfo.map
            Prod.fst
    ∧ operational ⟨[], [], [], []⟩ ("Start Datetime") [] = true := by
  refine ⟨rfl, by simp, rfl⟩

theorem getNotNone_iff (d : List (String × Option String)) (name : String) :
    getNotNone d name = true ↔ ∃ v, d.lookup name = some (some v) := by
  unfold getNotNone
  rcases h : d.lookup name with _ | v
  · simp
  · rcases v with _ | v <;> simp

/-- C4 amended: `operational` returns true unconditionally for names in
the lfl list, for names whose `aircraft_info` or
`achieved_flight_record` entry exists with a non-`None` value (a key
stored with value `None` does not count), and for the two sentinel names
`'root'` and `'Start Datetime'`; otherwise a name in the derived-node
catalogue gets that node's `can_operate(available)`, and any other name
gets false. -/
theorem c4_operational_cases (m : NodeManager) (name : String) (available : List String) :
    (presentUnconditionally m name = true ↔
      (name ∈ m.lfl ∨ (∃ v, m.aircraftInfo.lookup name = some (some v))
        ∨ (∃ v, m.achievedFlightRecord.lookup name = some (some v))
        ∨ name = "root" ∨ name = "Start Datetime"))
    ∧ (presentUnconditionally m name = true → operational m name available = true)
    ∧ (presentUnconditionally m name = false → ∀ canOp,
        m.derivedNodes.lookup name = some canOp →
        operational m name available = canOp available)
    ∧ (presentUnconditionally m name = false → m.derivedNodes.lookup name = none →
        operational m name available = false) := by
  refine ⟨?_, ?_, ?_, ?_⟩
  · simp [presentUnconditionally, Bool.or_eq_true, List.elem_iff, getNotNone_iff,
      beq_iff_eq, or_assoc]
  · intro h; simp [operational, h]
  · intro h canOp hc; simp [operational, h, hc]
  · intro h hc; simp [operational, h, hc]

/-- C4 witness: the amended cases instantiated on a manager with one
recorded parameter, one aircraft attribute and one derived node. -/
theorem c4_operational_cases_witness :
    (presentUnconditionally ⟨["Airspeed"], [("Series", some "B737-300")], [],
        [("Altitude AAL", fun available => available.contains ("Airspeed"))]⟩
        ("Altitude AAL") = false →
      ∀ canOp,
        (NodeManager.mk ["Airspeed"] [("Series", some "B737-300")] []
            [("Altitude AAL", fun available => available.contains ("Airspeed"))]).derivedNodes.lookup
            ("Altitude AAL") = some canOp →
        operational ⟨["Airspeed"], [("Series", some "B737-300")], [],
            [("Altitude AAL", fun available => available.contains ("Airspeed"))]⟩
            ("Altitude AAL") ["Airspeed"] = canOp ["Airspeed"])
    ∧ operational ⟨["Airspeed"], [("Series", some "B737-300")], [],
        [("Altitude AAL", fun available => available.contains ("Airspeed"))]⟩
        ("Altitude AAL") ["Airspeed"]
      = (fun available : List String => available.contains ("Airspeed")) ["Airspeed"] :=
  ⟨(c4_operational_cases ⟨["Airspeed"], [("Series", some "B737-300")], [],
      [("Altitude AAL", fun available => available.contains ("Airspeed"))]⟩
      ("Altitude AAL") ["Airspeed"]).2.2.1,
   (c4_operational_cases ⟨["Airspeed"], [("Series", some "B737-300")], [],
      [("Altitude AAL", fun available => available.contains ("Airspeed"))]⟩
      ("Altitude AAL") ["Airspeed"]).2.2.1 rfl _ rfl⟩

/-- C9 counterexample: a wrapped `False` evaluates as absent (falsy) in
`Attribute.__nonzero__` — the code explicitly tests
`self.value is not False`, so only the number `0` keeps the
"0 is meaningful" exception, contradicting the claim that a wrapped
`False` is still considered present. -/
theorem c9_truthiness_counterexample : attrNonzero (.boolV false) = false := rfl

/-- C9 amended: the truthiness of an `Attribute` or
`FlightAttributeNode` follows the wrapped value's truthiness except that
the number `0` is still considered present; `None` is absent, and a
wrapped `False` is also absent (excluded from the `0` exception by the
`is not False` test). -/
theorem c9_truthiness_cases (v : PyVal) :
    (attrNonzero v = true ↔ (pyTruthy v = true ∨ v = .intV 0))
    ∧ attrNonzero .noneV = false
    ∧ attrNonzero (.boolV false) = false := by
  refine ⟨?_, rfl, rfl⟩
  cases v with
  | noneV => simp [attrNonzero, pyTruthy, pyEqZero, pyIsFalse]
  | boolV b => cases b <;> simp [attrNonzero, pyTruthy, pyEqZero, pyIsFalse]
  | intV n =>
    simp only [attrNonzero, pyTruthy, pyEqZero, pyIsFalse, Bool.or_eq_true,
      Bool.and_eq_true, bne_iff_ne, beq_iff_eq, Bool.not_false, and_true,
      PyVal.intV.injEq]
  | strV s => simp [attrNonzero, pyTruthy, pyEqZero, pyIsFalse]

theorem maskEntries_length (s : Option Nat × Option Nat) (len : Nat) :
    ∀ (k : Nat) (l : List (Option ℚ)), (maskEntries s len k l).length = l.length := by
  intro k l
  induction l generalizing k with
  | nil => rfl
  | cons x xs ih => simp [maskEntries, ih]

theorem maskEntries_getElem? (s : Option Nat × Option Nat) (len : Nat) :
    ∀ (l : List (Option ℚ)) (k j : Nat),
      (maskEntries s len k l)[j]?
        = (l[j]?).map (fun x => if sliceContains s.1 s.2 len (k + j) then none else x) := by
  intro l
  induction l with
  | nil => intro k j; simp [maskEntries]
  | cons x xs ih =>
    intro k j
    cases j with
    | zero => simp [maskEntries]
    | succ j =>
      simp only [maskEntries, List.getElem?_cons_succ, ih (k + 1) j]
      have : k + 1 + j = k + (j + 1) := by omega
      rw [this]

theorem maskSlices_keeps_masked (slices : List (Option Nat × Option Nat)) :
    ∀ (arr : List (Option ℚ)) (i : Nat), arr[i]? = some none →
      (maskSlices arr slices)[i]? = some none := by
  induction slices with
  | nil => intro arr i h; exact h
  | cons s rest ih =>
    intro arr i h
    have hstep : maskSlices arr (s :: rest)
        = maskSlices (maskEntries s arr.length 0 arr) rest := rfl
    rw [hstep]
    apply ih
    rw [maskEntries_getElem?, h]
    simp

theorem maskSlices_masks (slices : List (Option Nat × Option Nat))
    (sl : Option Nat × Option Nat) (hs : sl ∈ slices) :
    ∀ (arr : List (Option ℚ)) (i : Nat),
      sliceContains sl.1 sl.2 arr.length i = true → i < arr.length →
      (maskSlices arr slices)[i]? = some none := by
  induction slices with
  | nil => cases hs
  | cons s rest ih =>
    intro arr i hc hi
    have hstep : maskSlices arr (s :: rest)
        = maskSlices (maskEntries s arr.length 0 arr) rest := rfl
    rcases List.mem_cons.mp hs with rfl | hmem
    · rw [hstep]
      apply maskSlices_keeps_masked
      rw [maskEntries_getElem?]
      have harr : arr[i]? = some (arr[i]) := List.getElem?_eq_getElem hi
      rw [harr]
      simp [Nat.zero_add, hc]
    · rw [hstep]
      have hlen : (maskEntries s arr.length 0 arr).length = arr.length :=
        maskEntries_length s arr.length 0 arr
      exact ih hmem (maskEntries s arr.length 0 arr) i (by rw [hlen]; exact hc)
        (by rw [hlen]; exact hi)

/-- C10: `create_kpv_outside_slices` mutates the caller's array in
place — in the state-passing embedding, the array the caller holds after
the call is the first component of the result, and every entry inside
any of the given slices is masked there (the exclusion is never undone
and no private copy is taken; `function` already runs on the caller's
masked array). -/
theorem c10_create_kpv_outside_slices_masks (arr : List (Option ℚ))
    (slices : List (Option Nat × Option Nat)) (nodeName : String)
    (function : List (Option ℚ) → Option ℚ × KpvInput) (node : List KeyPointValue)
    (sl : Option Nat × Option Nat) (i : Nat) (hs : sl ∈ slices)
    (hc : sliceContains sl.1 sl.2 arr.length i = true) (hi : i < arr.length) :
    ((createKpvOutsideSlices arr slices nodeName function node).1)[i]? = some none
    ∧ (createKpvOutsideSlices arr slices nodeName function node).1
        = maskSlices arr slices :=
  ⟨maskSlices_masks slices sl hs arr i hc hi, rfl⟩

/-- C10 witness: masking `[1:3]` of a three-sample array leaves the
caller's array with entry 1 masked after the call. -/
theorem c10_create_kpv_outside_slices_masks_witness :
    ((createKpvOutsideSlices [some 1, some 2, some 3] [(some 1, some 3)]
        ("Airspeed Max") (fun _ => (none, .noneV)) []).1)[1]? = some none
    ∧ (createKpvOutsideSlices [some 1, some 2, some 3] [(some 1, some 3)]
        ("Airspeed Max") (fun _ => (none, .noneV)) []).1
        = maskSlices [some 1, some 2, some 3] [(some 1, some 3)] :=
  c10_create_kpv_outside_slices_masks [some 1, some 2, some 3] [(some 1, some 3)]
    ("Airspeed Max") (fun _ => (none, .noneV)) [] (some 1, some 3) 1
    (by decide) (by decide) (by decide)

theorem isMaximalRun_bounds {t : Nat} {l : List (Option Nat)} {s e : Nat}
    (h : isMaximalRun t l s e = true) : s < e ∧ e ≤ l.length := by
  simp only [isMaximalRun, Bool.and_eq_true, decide_eq_true_eq] at h
  exact ⟨h.1.1.1.1, h.1.1.1.2⟩

theorem mem_clumpsOf {t : Nat} {l : List (Option Nat)} {s e : Nat}
    (h : isMaximalRun t l s e = true) : (s, e) ∈ clumpsOf t l := by
  obtain ⟨hse, hel⟩ := isMaximalRun_bounds h
  refine List.mem_filter.mpr ⟨?_, h⟩
  simp only [List.mem_flatMap, List.mem_range, List.mem_map]
  exact ⟨s, by omega, e, by omega, rfl⟩

theorem clumpsOf_bounds {t : Nat} {l : List (Option Nat)} {p : Nat × Nat}
    (hp : p ∈ clumpsOf t l) : p.1 < p.2 ∧ p.2 ≤ l.length :=
  isMaximalRun_bounds (List.mem_filter.mp hp).2

theorem mem_stateChange_cases {change : Change} {t : Nat} {l : List (Option Nat)}
    {sliceStart : Nat} {x : ℚ}
    (hx : x ∈ createKtisOnStateChange change t l sliceStart) :
    ∃ p ∈ clumpsOf t l,
      (0 < p.1 ∧ x = ((p.1 + sliceStart : Nat) : ℚ) - 1/2)
      ∨ (p.2 < l.length ∧ x = ((p.2 + sliceStart : Nat) : ℚ) - 1/2) := by
  obtain ⟨p, hp, hin⟩ := List.mem_flatMap.mp hx
  refine ⟨p, hp, ?_⟩
  rcases List.mem_append.mp hin with h1 | h1
  · by_cases hcond : (change = .entering ∨ change = .entering_and_leaving) ∧ 0 < p.1
    · rw [if_pos hcond] at h1
      exact Or.inl ⟨hcond.2, List.mem_singleton.mp h1⟩
    · rw [if_neg hcond] at h1
      cases h1
  · by_cases hcond : (change = .leaving ∨ change = .entering_and_leaving) ∧ p.2 < l.length
    · rw [if_pos hcond] at h1
      exact Or.inr ⟨hcond.2, List.mem_singleton.mp h1⟩
    · rw [if_neg hcond] at h1
      cases h1

/-- C6: for each maximal run `[s, e)` of the target state within the
scanned range, `create_ktis_on_state_change` creates a KTI at absolute
index `s + sliceStart - 0.5` for `entering`/`entering_and_leaving`
unless the run begins the scanned range, and at `e + sliceStart - 0.5`
for `leaving`/`entering_and_leaving` unless the run ends it; no KTI is
ever created at either suppressed boundary index. -/
theorem c6_state_change_half_sample_ktis (change : Change) (t : Nat)
    (l : List (Option Nat)) (sliceStart s e : Nat)
    (h : isMaximalRun t l s e = true) :
    (((change = .entering ∨ change = .entering_and_leaving) ∧ 0 < s) →
      ((s + sliceStart : Nat) : ℚ) - 1/2 ∈ createKtisOnStateChange change t l sliceStart)
    ∧ (s = 0 →
      ((sliceStart : ℚ)) - 1/2 ∉ createKtisOnStateChange change t l sliceStart)
    ∧ (((change = .leaving ∨ change = .entering_and_leaving) ∧ e < l.length) →
      ((e + sliceStart : Nat) : ℚ) - 1/2 ∈ createKtisOnStateChange change t l sliceStart)
    ∧ (e = l.length →
      ((l.length + sliceStart : Nat) : ℚ) - 1/2 ∉ createKtisOnStateChange change t l sliceStart) := by
  refine ⟨?_, ?_, ?_, ?_⟩
  · intro hcond
    refine List.mem_flatMap.mpr ⟨(s, e), mem_clumpsOf h, ?_⟩
    rw [List.mem_append]
    left
    rw [if_pos hcond]
    exact List.mem_singleton.mpr rfl
  · intro _ hmem
    obtain ⟨p, hp, hcase⟩ := mem_stateChange_cases hmem
    obtain ⟨h1, h2⟩ := clumpsOf_bounds hp
    rcases hcase with ⟨hpos, heq⟩ | ⟨_, heq⟩
    · have : (sliceStart : ℚ) = ((p.1 + sliceStart : Nat) : ℚ) := by linarith
      have : sliceStart = p.1 + sliceStart := by exact_mod_cast this
      omega
    · have : (sliceStart : ℚ) = ((p.2 + sliceStart : Nat) : ℚ) := by linarith
      have : sliceStart = p.2 + sliceStart := by exact_mod_cast this
      omega
  · intro hcond
    refine List.mem_flatMap.mpr ⟨(s, e), mem_clumpsOf h, ?_⟩
    rw [List.mem_append]
    right
    rw [if_pos hcond]
    exact List.mem_singleton.mpr rfl
  · intro _ hmem
    obtain ⟨p, hp, hcase⟩ := mem_stateChange_cases hmem
    obtain ⟨h1, h2⟩ := clumpsOf_bounds hp
    rcases hcase with ⟨_, heq⟩ | ⟨hlt, heq⟩
    · have : ((l.length + sliceStart : Nat) : ℚ) = ((p.1 + sliceStart : Nat) : ℚ) := by
        linarith
      have : l.length + sliceStart = p.1 + sliceStart := by exact_mod_cast this
      omega
    · have : ((l.length + sliceStart : Nat) : ℚ) = ((p.2 + sliceStart : Nat) : ℚ) := by
        linarith
      have : l.length + sliceStart = p.2 + sliceStart := by exact_mod_cast this
      omega

/-- C6 witness: in `[0, 1, 1, 0]` scanned from absolute index 0 with
target state 1, the run `[1, 3)` yields an entering KTI at `0.5` and a
leaving KTI at `2.5`; the boundary-suppression facts are instantiated
for the run `[2, 4)` of `[0, 0, 1, 1]`, which touches the end of the
scanned range. -/
theorem c6_state_change_half_sample_ktis_witness :
    (((1 + 0 : Nat) : ℚ) - 1/2
        ∈ createKtisOnStateChange .entering_and_leaving 1 [some 0, some 1, some 1, some 0] 0)
    ∧ (((3 + 0 : Nat) : ℚ) - 1/2
        ∈ createKtisOnStateChange .entering_and_leaving 1 [some 0, some 1, some 1, some 0] 0)
    ∧ ((((4 : Nat) + 0 : Nat) : ℚ) - 1/2
        ∉ createKtisOnStateChange .entering_and_leaving 1 [some 0, some 0, some 1, some 1] 0) :=
  ⟨(c6_state_change_half_sample_ktis .entering_and_leaving 1
      [some 0, some 1, some 1, some 0] 0 1 3 (by decide)).1 ⟨Or.inr rfl, by decide⟩,
   (c6_state_change_half_sample_ktis .entering_and_leaving 1
      [some 0, some 1, some 1, some 0] 0 1 3 (by decide)).2.2.1 ⟨Or.inr rfl, by decide⟩,
   (c6_state_change_half_sample_ktis .entering_and_leaving 1
      [some 0, some 0, some 1, some 1] 0 2 4 (by decide)).2.2.2 rfl⟩

/-- C7 counterexample: `get_previous` iterates the list sorted by slice
*start* (the `get_ordered_by_index` call never passes `use` as the sort
key), not by the chosen `stop` key.  With sections `a = [0, 10)` and
`b = [2, 5)` and index 20 it returns `b` (stop 5), although `a` also
qualifies (stop 10 < 20) and has the strictly larger stop, so `b` is not
the last qualifying element in stop order as the claim requires. -/
theorem c7_get_previous_counterexample :
    getPrevious [⟨"a", some 0, some 10, none, none⟩, ⟨"b", some 2, some 5, none, none⟩]
        20 none 1 .stop = some ⟨"b", some 2, some 5, none, none⟩
    ∧ pyLtNum (sliceAttr .stop ⟨"a", some 0, some 10, none, none⟩) 20 = true
    ∧ ¬ keyLE (sliceAttr .stop ⟨"a", some 0, some 10, none, none⟩)
        (sliceAttr .stop ⟨"b", some 2, some 5, none, none⟩) :=
  ⟨by decide, by decide, by decide⟩

theorem keyLE_refl (a : Option ℤ) : keyLE a a := by
  cases a <;> simp [keyLE]

theorem find?_pairwise {α : Type} {R : α → α → Prop} {p : α → Bool} :
    ∀ {l : List α} {e : α}, l.Pairwise R → l.find? p = some e →
      ∀ x ∈ l, p x = true → R e x ∨ e = x := by
  intro l
  induction l with
  | nil => intro e _ hf; simp at hf
  | cons a tl ih =>
    intro e hpw hf x hx hpx
    rw [List.pairwise_cons] at hpw
    by_cases hpa : p a = true
    · rw [List.find?_cons_of_pos _ hpa] at hf
      injection hf with hf
      subst hf
      rcases List.mem_cons.mp hx with rfl | hx
      · exact Or.inr rfl
      · exact Or.inl (hpw.1 x hx)
    · rw [List.find?_cons_of_neg _ hpa] at hf
      rcases List.mem_cons.mp hx with rfl | hx
      · rw [hpx] at hpa; exact absurd rfl hpa
      · exact ih hpw.2 hf x hx hpx

/-- C7 amended: with no name or slice filter, `get_next` returns the
first element, and `get_previous` the last element, of the list *sorted
by slice start* whose chosen `use` key is strictly greater/less than
`index` (`get_ordered_by_index` is called without passing `use`, so the
walk order is by start regardless of the chosen comparison key): for
every `use` key, a returned element qualifies and no qualifying element
has a smaller (for `get_next`) or larger (for `get_previous`) start, and
the result is `None` exactly when no element qualifies; a foreign
`frequency` first rescales the index by `self.frequency / frequency`. -/
theorem c7_get_next_previous (l : List Section) (i : ℚ) :
    (∀ (use : UseKey) (e : Section), getNext l i none 1 use = some e →
      e ∈ l ∧ pyGtNum (sliceAttr use e) i = true
        ∧ ∀ x ∈ l, pyGtNum (sliceAttr use x) i = true → keyLE e.sliceStart x.sliceStart)
    ∧ (∀ use : UseKey, getNext l i none 1 use = none ↔
        ∀ x ∈ l, pyGtNum (sliceAttr use x) i = false)
    ∧ (∀ (use : UseKey) (e' : Section), getPrevious l i none 1 use = some e' →
      e' ∈ l ∧ pyLtNum (sliceAttr use e') i = true
        ∧ ∀ x ∈ l, pyLtNum (sliceAttr use x) i = true → keyLE x.sliceStart e'.sliceStart)
    ∧ (∀ use : UseKey, getPrevious l i none 1 use = none ↔
        ∀ x ∈ l, pyLtNum (sliceAttr use x) i = false)
    ∧ (∀ (j f sf : ℚ) (use : UseKey),
        getNext l j (some f) sf use = getNext l (j * (sf / f)) none sf use)
    ∧ (∀ (j f sf : ℚ) (use : UseKey),
        getPrevious l j (some f) sf use = getPrevious l (j * (sf / f)) none sf use) := by
  have hsorted : (getOrderedByIndex l).Pairwise startOrder :=
    List.sorted_insertionSort startOrder l
  have hperm := List.perm_insertionSort startOrder l
  have hrev : (getOrderedByIndex l).reverse.Pairwise (fun a b => startOrder b a) :=
    List.pairwise_reverse.mpr hsorted
  refine ⟨?_, ?_, ?_, ?_, fun _ _ _ _ => rfl, fun _ _ _ _ => rfl⟩
  · intro use e hn
    have hn' : (getOrderedByIndex l).find? (fun el => pyGtNum (sliceAttr use el) i)
        = some e := hn
    refine ⟨hperm.mem_iff.mp (List.mem_of_find?_eq_some hn'), ?_, ?_⟩
    · have hq := List.find?_some hn'
      exact hq
    · intro x hxl hpx
      have hxs : x ∈ getOrderedByIndex l := hperm.mem_iff.mpr hxl
      rcases find?_pairwise hsorted hn' x hxs hpx with h | rfl
      · exact h
      · exact keyLE_refl _
  · intro use
    constructor
    · intro h x hxl
      have h' : (getOrderedByIndex l).find? (fun el => pyGtNum (sliceAttr use el) i)
          = none := h
      rw [List.find?_eq_none] at h'
      simpa using h' x (hperm.mem_iff.mpr hxl)
    · intro h
      show (getOrderedByIndex l).find? (fun el => pyGtNum (sliceAttr use el) i) = none
      rw [List.find?_eq_none]
      intro x hxs
      have := h x (hperm.mem_iff.mp hxs)
      simp [this]
  · intro use e' hp
    have hp' : ((getOrderedByIndex l).reverse).find?
        (fun el => pyLtNum (sliceAttr use el) i) = some e' := hp
    refine ⟨?_, ?_, ?_⟩
    · have := List.mem_of_find?_eq_some hp'
      rw [List.mem_reverse] at this
      exact hperm.mem_iff.mp this
    · have hq := List.find?_some hp'
      exact hq
    · intro x hxl hpx
      have hxs : x ∈ (getOrderedByIndex l).reverse := by
        rw [List.mem_reverse]; exact hperm.mem_iff.mpr hxl
      rcases find?_pairwise hrev hp' x hxs hpx with h | rfl
      · exact h
      · exact keyLE_refl _
  · intro use
    constructor
    · intro h x hxl
      have h' : ((getOrderedByIndex l).reverse).find?
          (fun el => pyLtNum (sliceAttr use el) i) = none := h
      rw [List.find?_eq_none] at h'
      have hxs : x ∈ (getOrderedByIndex l).reverse := by
        rw [List.mem_reverse]; exact hperm.mem_iff.mpr hxl
      simpa using h' x hxs
    · intro h
      show ((getOrderedByIndex l).reverse).find?
          (fun el => pyLtNum (sliceAttr use el) i) = none
      rw [List.find?_eq_none]
      intro x hxs
      rw [List.mem_reverse] at hxs
      have := h x (hperm.mem_iff.mp hxs)
      simp [this]

/-- C7 witness: the specification's example — over start times
`[5, 12, 20]`, `get_next(10)` returns the section starting at 12, and
over stop times `[5, 9, 20]`, `get_previous(10)` returns the section
stopping at 9 (the same middle section here), both satisfying the
amended characterisation; and `get_next(25)` over the same starts
returns `None` because no start exceeds 25. -/
theorem c7_get_next_previous_witness :
    (⟨"s2", some 12, some 9, none, none⟩ : Section)
        ∈ [⟨"s1", some 5, some 5, none, none⟩, ⟨"s2", some 12, some 9, none, none⟩,
           (⟨"s3", some 20, some 20, none, none⟩ : Section)]
    ∧ pyGtNum (some 12) 10 = true
    ∧ (∀ x ∈ [⟨"s1", some 5, some 5, none, none⟩, ⟨"s2", some 12, some 9, none, none⟩,
           (⟨"s3", some 20, some 20, none, none⟩ : Section)],
        pyGtNum x.sliceStart 10 = true → keyLE (some 12) x.sliceStart)
    ∧ pyLtNum (some 9) 10 = true
    ∧ (∀ x ∈ [⟨"s1", some 5, some 5, none, none⟩, ⟨"s2", some 12, some 9, none, none⟩,
           (⟨"s3", some 20, some 20, none, none⟩ : Section)],
        pyLtNum x.sliceStop 10 = true → keyLE x.sliceStart (some 12))
    ∧ getNext [⟨"s1", some 5, some 5, none, none⟩, ⟨"s2", some 12, some 9, none, none⟩,
           (⟨"s3", some 20, some 20, none, none⟩ : Section)] 25 none 1 .start = none := by
  have h := c7_get_next_previous
    [⟨"s1", some 5, some 5, none, none⟩, ⟨"s2", some 12, some 9, none, none⟩,
     ⟨"s3", some 20, some 20, none, none⟩] 10
  have h25 := c7_get_next_previous
    [⟨"s1", some 5, some 5, none, none⟩, ⟨"s2", some 12, some 9, none, none⟩,
     ⟨"s3", some 20, some 20, none, none⟩] 25
  have hn := h.1 .start ⟨"s2", some 12, some 9, none, none⟩ (by decide)
  have hp := h.2.2.1 .stop ⟨"s2", some 12, some 9, none, none⟩ (by decide)
  exact ⟨hn.1, hn.2.1, hn.2.2, hp.2.1, hp.2.2, (h25.2.1 .start).mpr (by decide)⟩

theorem render_ignores_unused :
    ∀ (fmt : List Tok) (k v : String) (rvals : List (String × String)), k ∉ usedKeys fmt →
      render fmt ((k, v) :: rvals) = render fmt rvals := by
  intro fmt
  induction fmt with
  | nil => intros; rfl
  | cons tok rest ih =>
    intro k v rvals hk
    cases tok with
    | lit s =>
      simp only [render]
      rw [ih k v rvals (by simpa [usedKeys] using hk)]
    | sub k' =>
      simp only [usedKeys, List.mem_cons, not_or] at hk
      have hne : (k' == k) = false := by
        simp only [beq_eq_false_iff_ne, ne_eq]
        exact fun h => hk.1 h.symm
      simp only [render, List.lookup, hne]
      rw [ih k v rvals hk.2]

theorem mapM_option_length {α β : Type} {f : α → Option β} :
    ∀ {l : List α} {out : List β}, l.mapM f = some out → out.length = l.length := by
  intro l
  induction l with
  | nil =>
    intro out h
    simp only [List.mapM_nil, pure, Option.some.injEq] at h
    subst h
    rfl
  | cons a tl ih =>
    intro out h
    rw [List.mapM_cons] at h
    cases hfa : f a with
    | none => rw [hfa] at h; simp at h
    | some b =>
      rw [hfa] at h
      cases hm : tl.mapM f with
      | none => rw [hm] at h; simp at h
      | some bs =>
        rw [hm] at h
        simp only [Option.bind_eq_bind, Option.some_bind, pure, Option.some.injEq] at h
        subst h
        simp [ih hm]

theorem cartProduct_length :
    ∀ L : List (List String), (cartProduct L).length = (L.map List.length).prod := by
  intro L
  induction L with
  | nil => rfl
  | cons xs rest ih =>
    simp only [cartProduct, List.length_flatMap, List.map_map, List.map_cons, List.prod_cons]
    have hcomp : (List.length ∘ fun x : String => List.map (fun tl => x :: tl) (cartProduct rest))
        = fun _ : String => (cartProduct rest).length := by
      funext x; simp
    rw [hcomp, List.map_const', List.sum_replicate, smul_eq_mul, ih]

theorem mem_cartProduct :
    ∀ (L : List (List String)) (c : List String),
      c ∈ cartProduct L ↔ List.Forall₂ (fun x xs => x ∈ xs) c L := by
  intro L
  induction L with
  | nil =>
    intro c
    simp [cartProduct, List.forall₂_nil_right_iff]
  | cons xs rest ih =>
    intro c
    simp only [cartProduct, List.mem_flatMap, List.mem_map]
    constructor
    · rintro ⟨x, hx, c', hc', rfl⟩
      exact List.Forall₂.cons hx ((ih c').mp hc')
    · intro h
      cases h with
      | cons hx hrest =>
        next x c' =>
        exact ⟨x, hx, c', (ih c').mpr hrest, rfl⟩

/-- C8: `names()` is the single fixed node name when neither template
nor option lists are configured; otherwise it yields exactly one
rendered name per Cartesian-product combination (its length is the
product of the option-list lengths, and `cartProduct` enumerates exactly
the tuples drawing one value from each option list); `format_name`
returns the substituted name exactly when it is one of `names()` and
raises `ValueError` otherwise; and substitution keys the template does
not use never affect the rendering. -/
theorem c8_formatted_names (fixedName : String) (fmt : List Tok)
    (vals : List (String × List String)) :
    namesOf fixedName [] [] = some [fixedName]
    ∧ (∀ names, namesOf fixedName fmt vals = some names → ¬(fmt = [] ∧ vals = []) →
        names.length = (vals.map (fun kv => kv.2.length)).prod)
    ∧ (∀ c, c ∈ cartProduct (vals.map Prod.snd)
        ↔ List.Forall₂ (fun x xs => x ∈ xs) c (vals.map Prod.snd))
    ∧ (∀ rvals name names, ¬(rvals = [] ∧ fmt = []) → render fmt rvals = some name →
        namesOf fixedName fmt vals = some names →
        formatName fixedName fmt vals rvals
          = if name ∈ names then .ok name else .error .valueError)
    ∧ (∀ (k v : String) (rvals : List (String × String)), k ∉ usedKeys fmt →
        render fmt ((k, v) :: rvals) = render fmt rvals) := by
  refine ⟨rfl, ?_, fun c => mem_cartProduct (vals.map Prod.snd) c, ?_,
    fun k v rvals hk => render_ignores_unused fmt k v rvals hk⟩
  · intro names h hne
    unfold namesOf at h
    rw [if_neg hne] at h
    rw [mapM_option_length h, cartProduct_length, List.map_map]
    rfl
  · intro rvals name names h1 h2 h3
    unfold formatName
    rw [if_neg h1, h2, h3]

/-- C8 witness: the specification's example — with
`NAME_FORMAT = "Speed at %(alt)d ft"` and `NAME_VALUES = {alt: [1000,
1500]}`, `names()` is exactly the two formatted names, and
`format_name({alt: 1200})` raises because the rendered name is not one
of them. -/
theorem c8_formatted_names_witness :
    namesOf ("Node") [.lit "Speed at ", .sub "alt", .lit " ft"] [("alt", ["1000", "1500"])]
        = some ["Speed at 1000 ft", "Speed at 1500 ft"]
    ∧ formatName ("Node") [.lit "Speed at ", .sub "alt", .lit " ft"]
        [("alt", ["1000", "1500"])] [("alt", "1200")] = .error .valueError
    ∧ (["Speed at 1000 ft", "Speed at 1500 ft"] : List String).length
        = ([("alt", ["1000", "1500"])].map
            (fun kv : String × List String => kv.2.length)).prod := by
  have h := c8_formatted_names ("Node") [.lit "Speed at ", .sub "alt", .lit " ft"]
    [("alt", ["1000", "1500"])]
  refine ⟨by rfl, ?_, ?_⟩
  · have h4 := h.2.2.2.1 [("alt", "1200")] ("Speed at 1200 ft")
      ["Speed at 1000 ft", "Speed at 1500 ft"] (by simp) (by rfl) (by rfl)
    rw [h4, if_neg (by decide)]
  · exact h.2.1 ["Speed at 1000 ft", "Speed at 1500 ft"] (by rfl) (by simp)

end FDA
